import Mathlib

/-!
Verification development for the ipo-news repository.

The repository consists of an agent script (`src/agent/live.mjs`, two script
variants separated by a document marker) that fetches news articles, extracts
IPO records via an LLM call, merges records by normalized company name and
POSTs the digest to a webhook; and an HTTP server (`src/server.js`,
`src/unnamed/part_000`) that validates the inbound payload against a zod
schema, renders it to HTML and delivers it by email and an optional webhook.

JavaScript values are shallowly embedded by the inductive `JsVal`; JS numbers
are modelled as exact rationals (`ℚ`); the third-party pieces that the source
merely calls (the JS `Number()` string parser used by zod's `z.coerce.number`,
zod's URL validator, the number-to-string renderer used in templates) enter as
explicit function parameters of the definitions that use them.
-/

/-- A JavaScript value.  `undef` is JavaScript's `undefined`; object fields are
an insertion-ordered association list, as JS objects are. -/
inductive JsVal where
  | undef : JsVal
  | null : JsVal
  | bool : Bool → JsVal
  | num : ℚ → JsVal
  | str : String → JsVal
  | arr : List JsVal → JsVal
  | obj : List (String × JsVal) → JsVal
deriving Repr

/-- JS truthiness: `undefined`, `null`, `false`, `0`, `""` are falsy; every
array and object (including `[]` and `` the empty object ``) is truthy. -/
def jsTruthy : JsVal → Bool
  | .undef => false
  | .null => false
  | .bool b => b
  | .num q => decide (q ≠ 0)
  | .str s => decide (s ≠ "")
  | .arr _ => true
  | .obj _ => true

/-- Truthiness of an optional value (`none` models an absent field, i.e.
`undefined`). -/
def truthyOpt : Option JsVal → Bool
  | none => false
  | some v => jsTruthy v

/-- Property read `o[k]`: on an object, the stored value (last write wins, as
`JSON.parse` and JS assignment give each key a single slot); on any other
value, `undefined` (`none`).  Property reads never throw on primitives. -/
def getField : JsVal → String → Option JsVal
  | .obj fs, k => ((fs.filter (fun kv => kv.1 = k)).getLast?).map (fun kv => kv.2)
  | _, _ => none

/-- Property write `o[k] = v` on an association-list object: update in place
when the key exists, append otherwise — exactly JS object assignment order
semantics. -/
def setKey (fs : List (String × JsVal)) (k : String) (v : JsVal) : List (String × JsVal) :=
  if fs.any (fun kv => kv.1 = k) then
    fs.map (fun kv => if kv.1 = k then (k, v) else kv)
  else fs ++ [(k, v)]

/-- `delete o[k]`. -/
def removeKey (fs : List (String × JsVal)) (k : String) : List (String × JsVal) :=
  fs.filter (fun kv => kv.1 ≠ k)

/-- JS object spread `{...p, ...i}`: start from `p` and assign each property of
`i` in order. -/
def spreadObj (p i : List (String × JsVal)) : List (String × JsVal) :=
  i.foldl (fun acc kv => setKey acc kv.1 kv.2) p

/-- Key membership in an association-list object. -/
def hasKey (fs : List (String × JsVal)) (k : String) : Bool :=
  fs.any (fun kv => kv.1 = k)

/-- First-slot lookup; on JS-shaped objects (distinct keys) this is the value
of the property. -/
def getKey (fs : List (String × JsVal)) (k : String) : Option JsVal :=
  (fs.find? (fun kv => kv.1 = k)).map (fun kv => kv.2)

/-- JS `a || b` on optional strings, with `undefined` and `""` falsy. -/
def jsOrStr : Option String → Option String → Option String
  | some s, b => if s = "" then b else some s
  | none, b => b

/-- The JS `\s` / `trim` whitespace class (ASCII whitespace plus the Unicode
space separators, line separators, NBSP and BOM). -/
def isJsWs (c : Char) : Bool :=
  c = ' ' || c = '\t' || c = '\n' || c = '\r' || c.val = 11 || c.val = 12 ||
  c.val = 0xa0 || c.val = 0x1680 || (0x2000 ≤ c.val && c.val ≤ 0x200a) ||
  c.val = 0x2028 || c.val = 0x2029 || c.val = 0x202f || c.val = 0x205f ||
  c.val = 0x3000 || c.val = 0xfeff

/-- `String.prototype.toLowerCase` restricted to the ASCII case mappings that
the keyword patterns of the source need. -/
def jsToLower (s : String) : String := String.mk (s.data.map Char.toLower)

/-- `.replace(/\s+/g, " ")`: each maximal whitespace run becomes one space.
The flag records whether the previous character was part of a run. -/
def collapseWsAux : Bool → List Char → List Char
  | _, [] => []
  | prevWs, c :: cs =>
    if isJsWs c then
      if prevWs then collapseWsAux true cs else ' ' :: collapseWsAux true cs
    else c :: collapseWsAux false cs

/-- `.replace(/\s+/g, " ")` on a character list. -/
def collapseWs (l : List Char) : List Char := collapseWsAux false l

/-- `String.prototype.trim` on a character list. -/
def jsTrimL (l : List Char) : List Char :=
  ((l.dropWhile isJsWs).reverse.dropWhile isJsWs).reverse

/-- `String.prototype.trim`. -/
def jsTrim (s : String) : String := String.mk (jsTrimL s.data)

/-- Match a literal pattern at the head of the input, returning the remainder. -/
def litRest : List Char → List Char → Option (List Char)
  | [], cs => some cs
  | _ :: _, [] => none
  | p :: ps, c :: cs => if c = p then litRest ps cs else none

/-- Greedy optional dot, for the `ltd\.?` / `pvt\.?` patterns. -/
def dotOpt : List Char → List Char
  | '.' :: cs => cs
  | cs => cs

/-- One step of `/limited|ltd\.?|private|pvt\.?|ipo|drhp|rhp|public issue/`:
try the alternatives in source order at the current position. -/
def matchKeyword (cs : List Char) : Option (List Char) :=
  (litRest "limited".data cs) <|>
  ((litRest "ltd".data cs).map dotOpt) <|>
  (litRest "private".data cs) <|>
  ((litRest "pvt".data cs).map dotOpt) <|>
  (litRest "ipo".data cs) <|>
  (litRest "drhp".data cs) <|>
  (litRest "rhp".data cs) <|>
  (litRest "public issue".data cs)

/-- `.replace(/limited|.../gi, "")`, fuelled scan: at each position remove a
keyword match or keep the character.  Every pattern consumes at least one
character, so fuel equal to the input length suffices; the fuel-exhausted arm
is unreachable. -/
def stripKwGo : Nat → List Char → List Char
  | _, [] => []
  | 0, l => l
  | fuel + 1, c :: cs =>
    match matchKeyword (c :: cs) with
    | some r => stripKwGo fuel r
    | none => c :: stripKwGo fuel cs

/-- The keyword-removal replace of `normCompany` / `normCo`. -/
def stripKw (l : List Char) : List Char := stripKwGo l.length l

/-- `normCompany` (live.mjs line 31) / the body of `normCo` (line 261):
lowercase, delete the keywords, collapse whitespace, trim.  Both source
functions run this chain on the (guarded) string argument. -/
def normCompany (s : String) : String :=
  String.mk (jsTrimL (collapseWs (stripKw (jsToLower s).data)))

/-- The status rank table `{approved: 4, RHP: 3, DRHP: 2, rumor: 1}` with the
`|| 0` fallback (live.mjs line 35 / 266); JS object-literal lookup is
case-sensitive. -/
def statusRank (s : String) : Nat :=
  if s = "approved" then 4
  else if s = "RHP" then 3
  else if s = "DRHP" then 2
  else if s = "rumor" then 1
  else 0

/-- `pickBetterStatus(a, b)` / `pickStatus(a, b)`:
`(rank[a] || 0) >= (rank[b] || 0) ? a : b`. -/
def pickBetterStatus (a b : String) : String :=
  if statusRank b ≤ statusRank a then a else b

/-- `uniq(arr) = [...new Set(arr)]` (live.mjs line 30 / 260): JS `Set`
iteration order is insertion order, so this keeps the first occurrence of each
element.  `seen` is the set built so far. -/
def uniqAux [DecidableEq α] (seen : List α) : List α → List α
  | [] => []
  | a :: l => if a ∈ seen then uniqAux seen l else a :: uniqAux (a :: seen) l

/-- `uniq(arr)`. -/
def uniq [DecidableEq α] (l : List α) : List α := uniqAux [] l

/-- `normCompany` as called on an arbitrary JS value: `(s || "")` replaces any
falsy argument by `""`; `.toLowerCase()` then throws a `TypeError` unless the
receiver is a string. -/
def normCompanyJs (v : JsVal) : Except String String :=
  match (if jsTruthy v then v else JsVal.str "") with
  | .str s => .ok (normCompany s)
  | _ => .error "TypeError: toLowerCase is not a function"

/-- `normCo(s = "")` on an arbitrary JS value: the default parameter replaces
only `undefined` (not `null`); `.toLowerCase()` throws on any non-string. -/
def normCoJs (v : JsVal) : Except String String :=
  match (match v with | .undef => JsVal.str "" | w => w) with
  | .str s => .ok (normCompany s)
  | _ => .error "TypeError: toLowerCase is not a function"

/-! ## Agent data model -/

/-- An article as built from a news-API response item (title, description, url,
source, publishedAt); absent JSON fields are `none`. -/
structure Article where
  title : String
  description : Option String
  url : String
  source : Option String
  publishedAt : Option String
deriving DecidableEq, Repr

/-- An extracted IPO record as the merge loop sees it: the required `company`
and `status`, the optional schema fields, and the raw `links` object.
`lead_banks := none` models an absent field (the code guards with `|| []`). -/
structure ItemA where
  company : String
  status : String
  sector : Option String
  issue_size_cr : Option ℚ
  expected_window : Option String
  lead_banks : Option (List String)
  links : List (String × JsVal)
  notes : Option String
deriving Repr

/-- The merge key `normCompany(it.company)`. -/
def keyOfA (it : ItemA) : String := normCompany it.company

/-- The merged record built at live.mjs lines 191–197 / 450–455:
`{...prev, ...it, status: pickBetterStatus(it.status, prev.status),
lead_banks: uniq([...]), links: {...prev.links, ...it.links}}`.
The object spread lets a field of `it` override `prev`'s when present. -/
def merge2 (prev it : ItemA) : ItemA :=
  ⟨it.company,
   pickBetterStatus it.status prev.status,
   it.sector <|> prev.sector,
   it.issue_size_cr <|> prev.issue_size_cr,
   it.expected_window <|> prev.expected_window,
   some (uniq ((prev.lead_banks.getD []) ++ (it.lead_banks.getD []))),
   spreadObj prev.links it.links,
   it.notes <|> prev.notes⟩

/-- One iteration of the merge loop over the `byCo` map (modelled as an
insertion-ordered association list, as a JS `Map` is): a fresh key is
appended, an existing key's record is replaced by the merge in place. -/
def insertItem (acc : List (String × ItemA)) (it : ItemA) : List (String × ItemA) :=
  match acc.find? (fun kv => kv.1 = keyOfA it) with
  | none => acc ++ [(keyOfA it, it)]
  | some kv => acc.map (fun kv2 => if kv2.1 = keyOfA it then (keyOfA it, merge2 kv.2 it) else kv2)

/-- The whole merge loop followed by `Array.from(byCo.values())`. -/
def mergeItems (items : List ItemA) : List ItemA :=
  (items.foldl insertItem []).map (fun kv => kv.2)

/-! ## GNews fetch with retry (live.mjs lines 270–293, low-request variant) -/

/-- An HTTP response as `gnewsFetch` observes it: a status code and the body
text. -/
structure HttpResp where
  status : Nat
  body : String
deriving DecidableEq, Repr

/-- `Response.ok`: status in the 2xx range. -/
def respOk (r : HttpResp) : Bool := decide (200 ≤ r.status) && decide (r.status ≤ 299)

/-- What a `gnewsFetch` call ends in. -/
inductive FetchResult where
  | success : String → FetchResult
  | httpError : Nat → String → FetchResult
  | exhausted : FetchResult
deriving DecidableEq, Repr

/-- The retry loop of `gnewsFetch`: `resp n` is the response to the `n`-th
attempt, `rand n` the jitter `Math.floor(Math.random() * 400)` drawn on that
attempt, `i` the attempt index and `fuel` the remaining tries.  The result
carries the list of backoff waits (in ms, as exact rationals) in order:
`BASE_DELAY_MS * 1.8^i + jitter` on 429, `1000 * (i + 1)` on 5xx.  A 2xx
returns the body; any other status throws at once; running out of tries
throws `retries exhausted`. -/
def gnewsRun (rand : Nat → Nat) (resp : Nat → HttpResp) : Nat → Nat → FetchResult × List ℚ
  | _, 0 => (.exhausted, [])
  | i, fuel + 1 =>
    let r := resp i
    if respOk r then (.success r.body, [])
    else if r.status = 429 then
      let w : ℚ := 2500 * (9 / 5 : ℚ) ^ i + (rand i : ℚ)
      let rest := gnewsRun rand resp (i + 1) fuel
      (rest.1, w :: rest.2)
    else if 500 ≤ r.status then
      let w : ℚ := 1000 * ((i : ℚ) + 1)
      let rest := gnewsRun rand resp (i + 1) fuel
      (rest.1, w :: rest.2)
    else (.httpError r.status r.body, [])

/-- `gnewsFetch(url)` with the default `tries = 5`. -/
def gnewsFetch (rand : Nat → Nat) (resp : Nat → HttpResp) : FetchResult × List ℚ :=
  gnewsRun rand resp 0 5

/-! ## IPO keyword filter and getArticles -/

/-- JS word character (`\w` = `[A-Za-z0-9_]`), for the `\b` boundaries. -/
def isWordChar (c : Char) : Bool := c.isAlpha || c.isDigit || c = '_'

/-- Match one alternative of `IPO_RGX` at the current position, returning the
remainder after the match.  `public\s+issue` and
`initial\s+public\s+offering` take one-or-more whitespace between words. -/
def matchIpoWord : List Char → Option (List Char)
  | cs =>
    (litRest "ipo".data cs) <|>
    (litRest "drhp".data cs) <|>
    (litRest "rhp".data cs) <|>
    ((litRest "public".data cs).bind (fun r =>
      match r.dropWhile isJsWs with
      | r' => if r'.length < r.length then litRest "issue".data r' else none)) <|>
    ((litRest "initial".data cs).bind (fun r =>
      match r.dropWhile isJsWs with
      | r' =>
        if r'.length < r.length then
          (litRest "public".data r').bind (fun r2 =>
            match r2.dropWhile isJsWs with
            | r2' => if r2'.length < r2.length then litRest "offering".data r2' else none)
        else none))

/-- Does some alternative match at this position with `\b` on both sides?
`prevIsWord` says whether the preceding character is a word character (all
alternatives begin and end with word characters, so `\b` amounts to a
non-word neighbour or the string edge). -/
def ipoHitAt (prevIsWord : Bool) (cs : List Char) : Bool :=
  !prevIsWord &&
    (match matchIpoWord cs with
     | some r =>
       match r with
       | [] => true
       | c :: _ => !isWordChar c
     | none => false)

/-- Scan for a match anywhere in the (already lowercased) text. -/
def ipoScan : Bool → List Char → Bool
  | _, [] => false
  | prevIsWord, c :: cs =>
    ipoHitAt prevIsWord (c :: cs) || ipoScan (isWordChar c) cs

/-- `IPO_RGX.test(t)` (live.mjs line 267):
`/\b(ipo|drhp|rhp|public\s+issue|initial\s+public\s+offering)\b/i`. -/
def ipoTest (t : String) : Bool := ipoScan false (jsToLower t).data

/-- The text the filter is applied to: `` `${a.title} ${a.description || ""}` ``. -/
def ipoText (a : Article) : String := a.title ++ " " ++ (a.description.getD "")

/-- `MAX_ARTICLES = Math.max(5, Number(process.env.MAX_ARTICLES || "20"))`
(live.mjs line 238); `m` is the numeric value of the environment variable
(or 20 when unset). -/
def maxArticles (m : Int) : Nat := (max 5 m).toNat

/-- URL-dedupe helper for
`all.filter(a => !seen.has(a.url) && seen.add(a.url))`: keep an article iff
its url has not been seen. -/
def dedupeByUrlAux (seen : List String) : List Article → List Article
  | [] => []
  | a :: rest =>
    if a.url ∈ seen then dedupeByUrlAux seen rest
    else a :: dedupeByUrlAux (a.url :: seen) rest

/-- The URL dedupe (live.mjs lines 89–91 and 357–359). -/
def dedupeByUrl (l : List Article) : List Article := dedupeByUrlAux [] l

/-- `getArticles` of the first script variant (live.mjs lines 72–92): the four
query results are concatenated and deduped by URL; no keyword filter is
applied.  `chunks` are the per-query provider responses. -/
def getArticles1 (chunks : List (List Article)) : List Article :=
  dedupeByUrl chunks.flatten

/-- Steps 1 of `getArticles` in the low-request variant (live.mjs lines
331–341): concatenate top-headlines pages `1..pages` with
`per = Math.min(10, MAX_ARTICLES)` and `pages = Math.min(3,
Math.ceil(MAX_ARTICLES / per))`, then filter by `IPO_RGX`.  `m` is the
`MAX_ARTICLES` environment number, `heads p` the articles of top-headlines
page `p`. -/
def headlinePool (m : Int) (heads : Nat → List Article) : List Article :=
  (((List.range (min 3 ((maxArticles m + min 10 (maxArticles m) - 1) / min 10 (maxArticles m)))).flatMap
    (fun p => heads (p + 1))).filter (fun a => ipoTest (ipoText a)))

/-- Step 2 of `getArticles` (live.mjs lines 344–355): the top-up searches.
`haveLen` is the number of filtered headline articles;
`pagesNeeded = Math.min(2, Math.ceil(needed / per))` pages of each of the two
queries (0 = "India IPO", 1 = "DRHP India") are concatenated — with no
keyword filter applied to their results. -/
def searchTopUp (m : Int) (haveLen : Nat) (search : Nat → Nat → List Article) : List Article :=
  (List.range 2).flatMap (fun q =>
    (List.range (min 2 ((maxArticles m - haveLen + min 10 (maxArticles m) - 1) /
        min 10 (maxArticles m)))).flatMap
      (fun p => search q (p + 1)))

/-- The article pool before dedupe: the filtered headlines, topped up by the
searches when they fall short of `MAX_ARTICLES`. -/
def topUpPool (m : Int) (heads : Nat → List Article)
    (search : Nat → Nat → List Article) : List Article :=
  if (headlinePool m heads).length < maxArticles m then
    headlinePool m heads ++ searchTopUp m (headlinePool m heads).length search
  else headlinePool m heads

/-- `getArticles` of the low-request variant (live.mjs lines 328–362):
headlines filtered by `IPO_RGX`, search top-up when short, dedupe by URL,
`slice(0, MAX_ARTICLES)`. -/
def getArticles2 (m : Int) (heads : Nat → List Article)
    (search : Nat → Nat → List Article) : List Article :=
  (dedupeByUrl (topUpPool m heads search)).take (maxArticles m)

/-! ## LLM extraction (live.mjs lines 97–138 and the main loop 166–199) -/

/-- `Number(s)` on a string that has already been cleaned to digits and dots
by `.replace(/[^\d.]/g, "")`: the empty string is `0`; otherwise the string
must contain at most one dot and at least one digit, and denotes
`intpart.fracpart` in decimal.  Anything else is `NaN` (`none`). -/
def parseCleanNum (l : List Char) : Option ℚ :=
  if l = [] then some 0
  else
    match l.splitOn '.' with
    | [d] => some ((d.foldl (fun n c => 10 * n + (c.toNat - 48)) 0 : Nat) : ℚ)
    | [d, f] =>
      if d = [] && f = [] then none
      else some (((d.foldl (fun n c => 10 * n + (c.toNat - 48)) 0 : Nat) : ℚ) +
        ((f.foldl (fun n c => 10 * n + (c.toNat - 48)) 0 : Nat) : ℚ) / (10 : ℚ) ^ f.length)
    | _ => none

/-- `obj.issue_size_cr` cleanup (live.mjs lines 132–136): a string value is
stripped to `[0-9.]` and fed to `Number`; a finite result replaces the field
(`some (num q)`), `NaN` deletes it (`none`); a non-string value is left
untouched.  No branch can throw. -/
def sanitizeIssueSize (v : JsVal) : Option JsVal :=
  match v with
  | .str s => (parseCleanNum (s.data.filter (fun c => c.isDigit || c = '.'))).map JsVal.num
  | w => some w

/-- `extractItemFromArticle` after the LLM call (live.mjs lines 124–137),
as a function of the article URL and the result of
`try { JSON.parse(text) } catch { {} }` (`none` = the response text was not
valid JSON, so the catch produced `{}`).  Returns `.ok none` for the
`return null` paths, `.ok (some record)` for success, and `.error` when the
strict-mode write `obj.links.news = ...` throws on a truthy non-object
`links` value. -/
def extractItem (aUrl : String) (parsed : Option JsVal) : Except String (Option JsVal) :=
  let obj := parsed.getD (JsVal.obj [])
  if !jsTruthy obj then .ok none
  else if !truthyOpt (getField obj "company") then .ok none
  else if !truthyOpt (getField obj "status") then .ok none
  else
    match obj with
    | .obj fs =>
      let step1 : Except String (List (String × JsVal)) :=
        match getField (.obj fs) "links" with
        | some (.obj lf) =>
          let news := getField (.obj lf) "news"
          let newsVal := if truthyOpt news then news.getD (.str aUrl) else .str aUrl
          .ok (setKey fs "links" (.obj (setKey lf "news" newsVal)))
        | some (.arr xs) =>
          -- property write on an array object succeeds; the named property is
          -- dropped again by JSON serialization, so the record is unchanged
          .ok (setKey fs "links" (.arr xs))
        | some w =>
          if jsTruthy w then .error "TypeError: cannot create property on primitive"
          else .ok (setKey fs "links" (.obj [("news", .str aUrl)]))
        | none => .ok (setKey fs "links" (.obj [("news", .str aUrl)]))
      match step1 with
      | .error e => .error e
      | .ok fs1 =>
        let fs2 :=
          match getField (.obj fs1) "issue_size_cr" with
          | some (.str s) =>
            match sanitizeIssueSize (.str s) with
            | some v => setKey fs1 "issue_size_cr" v
            | none => removeKey fs1 "issue_size_cr"
          | _ => fs1
        .ok (some (.obj fs2))
    | _ => .ok none

/-- What the single LLM round-trip for an article produced: either the call
(or the post-processing) threw, or a response whose `JSON.parse` result is
`parsed` (`none` when parsing threw). -/
inductive LLMOutcome where
  | raise : LLMOutcome
  | response : Option JsVal → LLMOutcome

/-- What the main loop keeps from one article: the extracted record, or
nothing when extraction returned `null` or threw (the `catch` arm). -/
def extractStep (a : Article) (o : LLMOutcome) : Option JsVal :=
  match o with
  | .raise => none
  | .response p =>
    match extractItem a.url p with
    | .error _ => none
    | .ok r => r

/-- The extraction loop (live.mjs lines 172–181): one LLM outcome per
article, `try { ... } catch { continue }` around each. -/
def runExtractionLoop : List (Article × LLMOutcome) → List JsVal
  | [] => []
  | (a, o) :: rest =>
    match o with
    | .raise => runExtractionLoop rest
    | .response p =>
      match extractItem a.url p with
      | .error _ => runExtractionLoop rest
      | .ok none => runExtractionLoop rest
      | .ok (some it) => it :: runExtractionLoop rest

/-! ## Server data model (server.js / part_000) -/

/-- The validated `links` object of an `Item`: four optional link fields, each
a URL or `""` or `"NA"`. -/
structure LinksP where
  drhp : Option String
  rhp : Option String
  exchange_notice : Option String
  news : Option String
deriving DecidableEq, Repr

/-- The output of the zod `Item` schema (server.js lines 16–34). -/
structure ItemP where
  company : String
  sector : Option String
  issue_size_cr : Option ℚ
  status : String
  expected_window : Option String
  lead_banks : List String
  links : Option LinksP
  notes : Option String
deriving DecidableEq, Repr

/-- The output of the zod `Payload` schema (server.js lines 36–42). -/
structure PayloadP where
  as_of_date : String
  timezone : String
  source_notes : List String
  changes_since_last_run : Option String
  items : List ItemP
deriving DecidableEq, Repr

/-- `z.string()` on a required field: present and a string. -/
def vReqStr (fs : List (String × JsVal)) (k : String) : Except String String :=
  match getField (.obj fs) k with
  | some (.str s) => .ok s
  | _ => .error k

/-- `z.string().optional()`: absent passes as `none`; a present value must be
a string (`null` fails zod's `optional`). -/
def vOptStr (fs : List (String × JsVal)) (k : String) : Except String (Option String) :=
  match getField (.obj fs) k with
  | none => .ok none
  | some (.str s) => .ok (some s)
  | some _ => .error k

/-- The split-trim-filter of the `lead_banks` preprocess:
`v.split(/[,;|]/).map(s => s.trim()).filter(Boolean)`. -/
def splitBanks (s : String) : List String :=
  ((s.data.splitOnP (fun c => c = ',' || c = ';' || c = '|')).map
    (fun part => String.mk (jsTrimL part))).filter (fun t => t ≠ "")

/-- `z.preprocess(..., z.array(z.string()).optional())` for `lead_banks`
(server.js lines 22–26): an array passes through and must then contain only
strings; a string is split on `[,;|]`, trimmed and filtered; anything else
(absent included) becomes `[]`. -/
def vBanks (fs : List (String × JsVal)) : Except String (List String) :=
  match getField (.obj fs) "lead_banks" with
  | some (.arr xs) =>
    xs.mapM (fun x => match x with | .str s => Except.ok s | _ => Except.error "lead_banks")
  | some (.str s) => .ok (splitBanks s)
  | _ => .ok []

/-- `z.union([z.string().url(), z.literal(""), z.literal("NA")]).optional()`
for one link field; `iu` is zod's URL validity test. -/
def vLink (iu : String → Bool) (lf : List (String × JsVal)) (k : String) :
    Except String (Option String) :=
  match getField (.obj lf) k with
  | none => .ok none
  | some (.str s) => if iu s || s = "" || s = "NA" then .ok (some s) else .error k
  | some _ => .error k

/-- The `links` object schema (server.js lines 27–32): optional; a present
value must be an object whose four fields each satisfy `vLink`. -/
def vLinks (iu : String → Bool) (fs : List (String × JsVal)) :
    Except String (Option LinksP) :=
  match getField (.obj fs) "links" with
  | none => .ok none
  | some (.obj lf) => do
    let d ← vLink iu lf "drhp"
    let r ← vLink iu lf "rhp"
    let e ← vLink iu lf "exchange_notice"
    let n ← vLink iu lf "news"
    .ok (some ⟨d, r, e, n⟩)
  | some _ => .error "links"

/-- The zod `Item` schema (server.js lines 16–34).  `cn` is the JS `Number()`
coercion used by `z.coerce.number()` (`none` = `NaN`, which fails
`z.number()`); `iu` is zod's URL test. -/
def validateItem (cn : JsVal → Option ℚ) (iu : String → Bool) (v : JsVal) :
    Except String ItemP :=
  match v with
  | .obj fs => do
    let company ← vReqStr fs "company"
    let sector ← vOptStr fs "sector"
    let issue ← (match getField (.obj fs) "issue_size_cr" with
      | none => Except.ok none
      | some w => match cn w with
        | some q => Except.ok (some q)
        | none => Except.error "issue_size_cr")
    let status ← vReqStr fs "status"
    let ew ← vOptStr fs "expected_window"
    let banks ← vBanks fs
    let links ← vLinks iu fs
    let notes ← vOptStr fs "notes"
    .ok ⟨company, sector, issue, status, ew, banks, links, notes⟩
  | _ => .error "item"

/-- The zod `Payload` schema (server.js lines 36–42): `as_of_date` a required
string, `timezone` a string defaulting to `"Asia/Kolkata"`, `source_notes` an
array of strings defaulting to `[]`, `changes_since_last_run` an optional
string, `items` a required array of `Item`s. -/
def validatePayload (cn : JsVal → Option ℚ) (iu : String → Bool) (v : JsVal) :
    Except String PayloadP :=
  match v with
  | .obj fs => do
    let aod ← vReqStr fs "as_of_date"
    let tz ← (match getField (.obj fs) "timezone" with
      | none => Except.ok "Asia/Kolkata"
      | some (.str s) => Except.ok s
      | some _ => Except.error "timezone")
    let sn ← (match getField (.obj fs) "source_notes" with
      | none => Except.ok []
      | some (.arr xs) =>
        xs.mapM (fun x => match x with
          | JsVal.str s => Except.ok s
          | _ => Except.error "source_notes")
      | some _ => Except.error "source_notes")
    let ch ← vOptStr fs "changes_since_last_run"
    let items ← (match getField (.obj fs) "items" with
      | some (.arr xs) => xs.mapM (validateItem cn iu)
      | _ => Except.error "items")
    .ok ⟨aod, tz, sn, ch, items⟩
  | _ => .error "payload"

/-! ## Auth, recipients, routes -/

/-- Outcome of the `requireSecret` middleware. -/
inductive AuthResult where
  | pass : AuthResult
  | unauthorized : AuthResult
deriving DecidableEq, Repr

/-- Express's `req.get(name)`: case-insensitive header lookup. -/
def getHeader (headers : List (String × String)) (name : String) : Option String :=
  (headers.find? (fun kv => jsToLower kv.1 = jsToLower name)).map (fun kv => kv.2)

/-- `requireSecret` (server.js lines 85–91): `SHARED_SECRET` unset or falsy
(`""`) skips the check entirely; otherwise the token
`req.get("X-Auth-Token") || req.get("x-auth-token")` must be strictly equal
to the secret, else 401. -/
def requireSecret (secret : Option String) (headers : List (String × String)) : AuthResult :=
  match secret with
  | none => .pass
  | some s =>
    if s = "" then .pass
    else
      if jsOrStr (getHeader headers "X-Auth-Token") (getHeader headers "x-auth-token") = some s
      then .pass else .unauthorized

/-- `getRecipients()` (server.js lines 92–94):
`(process.env.TO_EMAIL || "").split(",").map(s => s.trim()).filter(Boolean)`. -/
def getRecipients (toEmail : Option String) : List String :=
  (((toEmail.getD "").splitOn ",").map jsTrim).filter (fun s => s ≠ "")

/-- A registered Express route: method, path, and whether the `requireSecret`
middleware is attached. -/
structure Route where
  method : String
  path : String
  requiresSecret : Bool
deriving DecidableEq, Repr

/-- The route registrations of the server (server.js lines 97–110, identical
in part_000 lines 162–177): `GET /health` open, `GET /status` and
`POST /monthly` behind `requireSecret`. -/
def appRoutes : List Route :=
  [⟨"GET", "/health", false⟩, ⟨"GET", "/status", true⟩, ⟨"POST", "/monthly", true⟩]

/-! ## The POST /monthly handler (server.js lines 110–158) -/

/-- The HTML table renderer `buildHtml` (server.js lines 45–83), with template
whitespace normalized; `numStr` is the JS number-to-string rendering used by
the `${...}` interpolation. -/
def buildHtml (numStr : ℚ → String) (p : PayloadP) : String :=
  let cell := fun (content : String) =>
    "<td style=\"padding:8px;border:1px solid #eee\">" ++ content ++ "</td>"
  let th := fun (content : String) =>
    "<th style=\"padding:8px;border:1px solid #eee\">" ++ content ++ "</th>"
  let link := fun (v : Option String) (label : String) =>
    match v with
    | some s => if s ≠ "" then "<a href=\"" ++ s ++ "\">" ++ label ++ "</a> " else ""
    | none => ""
  let rows := (p.items.enum.map (fun iit =>
    "<tr>" ++
    cell (toString (iit.1 + 1)) ++
    cell ("<b>" ++ iit.2.company ++ "</b><br><small>" ++ (iit.2.sector.getD "") ++ "</small>") ++
    cell ((iit.2.issue_size_cr.map numStr).getD "") ++
    cell ("<b>" ++ iit.2.status ++ "</b><br><small>" ++ (iit.2.expected_window.getD "") ++ "</small>") ++
    cell (String.intercalate ", " iit.2.lead_banks) ++
    cell (link (iit.2.links.bind (fun l => l.drhp)) "DRHP" ++
          link (iit.2.links.bind (fun l => l.rhp)) "RHP" ++
          link (iit.2.links.bind (fun l => l.exchange_notice)) "Notice" ++
          link (iit.2.links.bind (fun l => l.news)) "News") ++
    cell (iit.2.notes.getD "") ++
    "</tr>")).foldl (fun a b => a ++ b) ""
  "<div style=\"font-family:system-ui,-apple-system,Segoe UI,Roboto,Arial,sans-serif\">" ++
  "<h2>Upcoming India IPOs — " ++ p.as_of_date ++ " (IST)</h2>" ++
  (match p.changes_since_last_run with
   | some c => "<p><b>What changed:</b> " ++ c ++ "</p>"
   | none => "") ++
  "<table style=\"border-collapse:collapse;width:100%;font-size:14px\">" ++
  "<thead><tr style=\"background:#f7f7f7\">" ++
  th "#" ++ th "Company" ++ th "Issue (₹ Cr)" ++ th "Status / Window" ++
  th "Lead Banks" ++ th "Links" ++ th "Notes" ++
  "</tr></thead><tbody>" ++ rows ++ "</tbody></table>" ++
  (if p.source_notes ≠ [] then
    "<p style=\"margin-top:12px\"><small>Sources: " ++
    String.intercalate " • " p.source_notes ++ "</small></p>"
   else "") ++
  "</div>"

/-- The server environment read by the `/monthly` handler. -/
structure ServerEnv where
  dryRun : Bool
  sendgridKey : Option String
  fromEmail : Option String
  toEmail : Option String
  zapierUrl : Option String
deriving Repr

/-- An email handed to `sgMail.send`. -/
structure SentEmail where
  sendTo : List String
  fromAddr : String
  subject : String
  html : String
deriving DecidableEq, Repr

/-- The response body of the `/monthly` handler. -/
inductive HBody where
  | okTrue : HBody
  | validationErr : String → HBody
  | errMsg : String → HBody
deriving DecidableEq, Repr

/-- The observable outcome of one `/monthly` request: HTTP status, JSON body,
the emails handed to the provider, and the payloads forwarded to the Zapier
webhook. -/
structure MonthlyResult where
  status : Nat
  body : HBody
  emailsSent : List SentEmail
  webhookPosts : List PayloadP
deriving DecidableEq, Repr

/-- Falsiness of an env string (`undefined` or `""`). -/
def optFalsy : Option String → Bool
  | none => true
  | some s => decide (s = "")

/-- The `POST /monthly` handler after `requireSecret` (server.js lines
110–158).  `sendOk` is whether `sgMail.send` resolves; an email counts as
sent only when it does.  On a zod failure the handler returns 400 with the
validation error before any delivery code runs; otherwise it renders the
HTML, in non-dry-run mode requires the SendGrid key, the from-address and at
least one recipient (throwing to the 500 arm otherwise), sends the email, and
finally forwards the validated payload to the Zapier hook when configured
(its response status is ignored). -/
def postMonthly (env : ServerEnv) (numStr : ℚ → String) (cn : JsVal → Option ℚ)
    (iu : String → Bool) (sendOk : Bool) (body : JsVal) : MonthlyResult :=
  match validatePayload cn iu body with
  | .error e => ⟨400, .validationErr e, [], []⟩
  | .ok payload =>
    let html := buildHtml numStr payload
    let zapier : List PayloadP := match env.zapierUrl with
      | some u => if u ≠ "" then [payload] else []
      | none => []
    if env.dryRun then
      ⟨200, .okTrue, [], zapier⟩
    else if optFalsy env.sendgridKey then ⟨500, .errMsg "SENDGRID_KEY_MISSING", [], []⟩
    else if optFalsy env.fromEmail then ⟨500, .errMsg "FROM_EMAIL_MISSING", [], []⟩
    else if getRecipients env.toEmail = [] then ⟨500, .errMsg "NO_RECIPIENTS", [], []⟩
    else if !sendOk then ⟨500, .errMsg "delivery_failed", [], []⟩
    else
      ⟨200, .okTrue,
        [⟨getRecipients env.toEmail, (env.fromEmail.getD ""),
          "Upcoming India IPOs — " ++ payload.as_of_date, html⟩],
        zapier⟩

/-! ## Concrete fixtures used by witnesses and counterexamples -/

/-- A business headline with no IPO keyword. -/
def artQuarterly : Article :=
  ⟨"Quarterly results beat estimates", none, "https://x.example/a", none, none⟩

/-- Top-headline pages that return nothing. -/
def headsEmpty : Nat → List Article := fun _ => []

/-- A search provider whose first query's first page returns the non-IPO
headline. -/
def searchOne : Nat → Nat → List Article :=
  fun q p => if q = 0 && p = 1 then [artQuarterly] else []

/-- A headline that matches the IPO keyword filter. -/
def artDrhp : Article :=
  ⟨"Acme files DRHP with SEBI", none, "https://x.example/b", none, none⟩

/-- Top-headline pages whose first page carries the DRHP headline. -/
def headsOne : Nat → List Article := fun p => if p = 1 then [artDrhp] else []

/-- An extracted record for "Acme Limited" at DRHP stage. -/
def itemA1 : ItemA :=
  ⟨"Acme Limited", "DRHP", none, none, none, some ["SBI Caps"],
   [("news", .str "https://n.example/1")], none⟩

/-- A later extracted record for the same company at RHP stage. -/
def itemA2 : ItemA :=
  ⟨"ACME Ltd.", "RHP", some "Fintech", none, none, some ["SBI Caps", "Kotak"],
   [("news", .str "https://n.example/2"), ("rhp", .str "https://n.example/3")], none⟩

/-! ## Helper lemmas -/

theorem mem_uniqAux [DecidableEq α] (l : List α) :
    ∀ (seen : List α) (x : α), x ∈ uniqAux seen l ↔ x ∈ l ∧ x ∉ seen := by
  induction l with
  | nil => intro seen x; simp [uniqAux]
  | cons a l ih =>
    intro seen x
    by_cases ha : a ∈ seen
    · simp only [uniqAux, if_pos ha, ih]
      constructor
      · rintro ⟨hx, hns⟩; exact ⟨List.mem_cons_of_mem _ hx, hns⟩
      · rintro ⟨hx, hns⟩
        rcases List.mem_cons.mp hx with rfl | hx
        · exact absurd ha hns
        · exact ⟨hx, hns⟩
    · simp only [uniqAux, if_neg ha, List.mem_cons, ih]
      by_cases hxa : x = a
      · subst hxa; tauto
      · tauto

theorem uniqAux_nodup [DecidableEq α] (l : List α) :
    ∀ seen : List α, (uniqAux seen l).Nodup := by
  induction l with
  | nil => intro seen; simp [uniqAux]
  | cons a l ih =>
    intro seen
    by_cases ha : a ∈ seen
    · simpa [uniqAux, if_pos ha] using ih seen
    · simp only [uniqAux, if_neg ha]
      refine List.Nodup.cons ?_ (ih (a :: seen))
      intro hmem
      exact ((mem_uniqAux l (a :: seen) a).mp hmem).2 (List.mem_cons_self a seen)

theorem uniqAux_sublist [DecidableEq α] (l : List α) :
    ∀ seen : List α, List.Sublist (uniqAux seen l) l := by
  induction l with
  | nil => intro seen; simp [uniqAux]
  | cons a l ih =>
    intro seen
    by_cases ha : a ∈ seen
    · simpa [uniqAux, if_pos ha] using (ih seen).trans (List.sublist_cons_self a l)
    · simpa [uniqAux, if_neg ha] using List.Sublist.cons₂ a (ih (a :: seen))

theorem uniq_nodup [DecidableEq α] (l : List α) : (uniq l).Nodup := uniqAux_nodup l []

theorem mem_uniq [DecidableEq α] (l : List α) (x : α) : x ∈ uniq l ↔ x ∈ l := by
  simpa [uniq] using mem_uniqAux l [] x

theorem uniq_sublist [DecidableEq α] (l : List α) : List.Sublist (uniq l) l := uniqAux_sublist l []

theorem mem_dedupeByUrlAux (l : List Article) :
    ∀ (seen : List String) (a : Article),
      a ∈ dedupeByUrlAux seen l → a ∈ l ∧ a.url ∉ seen := by
  induction l with
  | nil => intro seen a h; simp [dedupeByUrlAux] at h
  | cons b l ih =>
    intro seen a h
    by_cases hb : b.url ∈ seen
    · simp only [dedupeByUrlAux, if_pos hb] at h
      obtain ⟨h1, h2⟩ := ih seen a h
      exact ⟨List.mem_cons_of_mem _ h1, h2⟩
    · simp only [dedupeByUrlAux, if_neg hb, List.mem_cons] at h
      rcases h with rfl | h
      · exact ⟨List.mem_cons_self _ _, hb⟩
      · obtain ⟨h1, h2⟩ := ih (b.url :: seen) a h
        exact ⟨List.mem_cons_of_mem _ h1, fun hs => h2 (List.mem_cons_of_mem _ hs)⟩

theorem dedupeByUrlAux_pairwise (l : List Article) :
    ∀ seen : List String,
      (dedupeByUrlAux seen l).Pairwise (fun x y => x.url ≠ y.url) := by
  induction l with
  | nil => intro seen; simp [dedupeByUrlAux]
  | cons b l ih =>
    intro seen
    by_cases hb : b.url ∈ seen
    · simpa [dedupeByUrlAux, if_pos hb] using ih seen
    · simp only [dedupeByUrlAux, if_neg hb]
      refine List.Pairwise.cons ?_ (ih (b.url :: seen))
      intro y hy
      have := (mem_dedupeByUrlAux l (b.url :: seen) y hy).2
      intro heq
      exact this (heq ▸ List.mem_cons_self _ _)

theorem dedupeByUrl_pairwise (l : List Article) :
    (dedupeByUrl l).Pairwise (fun x y => x.url ≠ y.url) :=
  dedupeByUrlAux_pairwise l []

theorem mem_dedupeByUrl (l : List Article) (a : Article) :
    a ∈ dedupeByUrl l → a ∈ l :=
  fun h => (mem_dedupeByUrlAux l [] a h).1

theorem find?_map_update (fs : List (String × JsVal)) (k : String) (v : JsVal) :
    ((fs.map (fun kv => if kv.1 = k then (k, v) else kv)).find?
      (fun kv => kv.1 = k)) =
      if fs.any (fun kv => kv.1 = k) then some (k, v) else none := by
  induction fs with
  | nil => simp
  | cons kv fs ih =>
    by_cases h : kv.1 = k
    · simp [h, List.find?]
    · simp only [List.map_cons, if_neg h, List.any_cons]
      rw [List.find?_cons_of_neg _ (by simpa using h)]
      simp only [decide_eq_false h, Bool.false_or]
      exact ih

theorem find?_map_update_other (fs : List (String × JsVal)) (k k' : String) (v : JsVal)
    (hne : k' ≠ k) :
    ((fs.map (fun kv => if kv.1 = k then (k, v) else kv)).find?
      (fun kv => kv.1 = k')) = fs.find? (fun kv => kv.1 = k') := by
  induction fs with
  | nil => rfl
  | cons kv fs ih =>
    by_cases hk : kv.1 = k
    · have h1 : ¬ (k = k') := fun hh => hne hh.symm
      have h2 : ¬ (kv.1 = k') := fun hh => (Ne.symm hne) (hk.symm.trans hh)
      simp only [List.map_cons, if_pos hk]
      rw [List.find?_cons_of_neg _ (by simpa using h1),
        List.find?_cons_of_neg _ (by simpa using h2)]
      exact ih
    · simp only [List.map_cons, if_neg hk]
      by_cases hk' : kv.1 = k'
      · rw [List.find?_cons_of_pos _ (by simpa using hk'),
          List.find?_cons_of_pos _ (by simpa using hk')]
      · rw [List.find?_cons_of_neg _ (by simpa using hk'),
          List.find?_cons_of_neg _ (by simpa using hk')]
        exact ih

theorem getKey_setKey_same (fs : List (String × JsVal)) (k : String) (v : JsVal) :
    getKey (setKey fs k v) k = some v := by
  unfold setKey getKey
  by_cases h : fs.any (fun kv => kv.1 = k)
  · rw [if_pos h, find?_map_update, if_pos h]
    rfl
  · rw [if_neg h, List.find?_append]
    have hnone : fs.find? (fun kv => kv.1 = k) = none := by
      rw [List.find?_eq_none]
      intro x hx
      have := (List.any_eq_true.not.mp h)
      push_neg at this
      simpa using this x hx
    simp [hnone, List.find?]

theorem getKey_setKey_other (fs : List (String × JsVal)) (k k' : String) (v : JsVal)
    (hne : k' ≠ k) : getKey (setKey fs k v) k' = getKey fs k' := by
  unfold setKey getKey
  by_cases h : fs.any (fun kv => kv.1 = k)
  · rw [if_pos h, find?_map_update_other fs k k' v hne]
  · rw [if_neg h, List.find?_append]
    have hd : ¬ (k = k') := fun hh => hne hh.symm
    have : List.find? (fun kv => kv.1 = k') [(k, v)] = none := by
      rw [List.find?_eq_none]
      intro x hx
      simp only [List.mem_singleton] at hx
      subst hx
      simpa using hd
    rw [this]
    cases List.find? (fun kv => kv.1 = k') fs <;> rfl

theorem hasKey_iff_getKey (fs : List (String × JsVal)) (k : String) :
    hasKey fs k = true ↔ getKey fs k ≠ none := by
  unfold hasKey getKey
  constructor
  · intro h hcon
    obtain ⟨kv, hkv, hp⟩ := List.any_eq_true.mp h
    have : fs.find? (fun kv => kv.1 = k) = none := by
      cases hfind : fs.find? (fun kv => kv.1 = k) with
      | none => rfl
      | some x => rw [hfind] at hcon; simp at hcon
    exact (List.find?_eq_none.mp this) kv hkv hp
  · intro h
    cases hfind : fs.find? (fun kv => kv.1 = k) with
    | none => rw [hfind] at h; exact absurd rfl h
    | some x =>
      have h1 : x ∈ fs := List.mem_of_find?_eq_some hfind
      have h2 := List.find?_some hfind
      exact List.any_eq_true.mpr ⟨x, h1, h2⟩

theorem getKey_spreadObj (i : List (String × JsVal)) :
    ∀ (p : List (String × JsVal)) (k : String), (i.map Prod.fst).Nodup →
      getKey (spreadObj p i) k =
        match getKey i k with
        | some v => some v
        | none => getKey p k := by
  induction i with
  | nil => intro p k _; simp [spreadObj, getKey, List.find?]
  | cons kv i ih =>
    intro p k hnd
    have hhead : kv.1 ∉ i.map Prod.fst := (List.nodup_cons.mp hnd).1
    have htail : (i.map Prod.fst).Nodup := (List.nodup_cons.mp hnd).2
    have hstep : spreadObj p (kv :: i) = spreadObj (setKey p kv.1 kv.2) i := rfl
    rw [hstep, ih (setKey p kv.1 kv.2) k htail]
    by_cases hk : k = kv.1
    · have hnone : getKey i k = none := by
        unfold getKey
        rw [List.find?_eq_none.mpr]
        · rfl
        · intro x hx
          simp only [decide_eq_true_eq]
          intro hxk
          exact hhead ((hxk.trans hk) ▸ List.mem_map_of_mem Prod.fst hx)
      have hcons : getKey (kv :: i) k = some kv.2 := by
        unfold getKey
        rw [List.find?_cons_of_pos _ (by simp [hk.symm])]
        rfl
      rw [hnone, hcons, hk]
      exact getKey_setKey_same p kv.1 kv.2
    · have hcons : getKey (kv :: i) k = getKey i k := by
        unfold getKey
        rw [List.find?_cons_of_neg _ (by simpa using fun hh => hk hh.symm)]
      rw [hcons, getKey_setKey_other p kv.1 k kv.2 hk]

theorem keyOfA_merge2 (prev it : ItemA) : keyOfA (merge2 prev it) = keyOfA it := rfl

theorem insertItem_inv (acc : List (String × ItemA)) (it : ItemA)
    (h1 : (acc.map Prod.fst).Nodup) (h2 : ∀ kv ∈ acc, kv.1 = keyOfA kv.2) :
    ((insertItem acc it).map Prod.fst).Nodup ∧
      ∀ kv ∈ insertItem acc it, kv.1 = keyOfA kv.2 := by
  unfold insertItem
  cases hfind : acc.find? (fun kv => kv.1 = keyOfA it) with
  | none =>
    constructor
    · rw [List.map_append]
      rw [List.nodup_append]
      refine ⟨h1, List.nodup_singleton _, ?_⟩
      intro x hx
      obtain ⟨kv, hkv, rfl⟩ := List.mem_map.mp hx
      have := List.find?_eq_none.mp hfind kv hkv
      simpa using this
    · intro kv hkv
      rcases List.mem_append.mp hkv with h | h
      · exact h2 kv h
      · simp only [List.mem_singleton] at h
        subst h
        rfl
  | some kv0 =>
    constructor
    · have hmap :
        (acc.map (fun kv2 =>
          if kv2.1 = keyOfA it then (keyOfA it, merge2 kv0.2 it) else kv2)).map Prod.fst =
          acc.map Prod.fst := by
        rw [List.map_map]
        apply List.map_congr_left
        intro a _
        by_cases h : a.1 = keyOfA it
        · simp [Function.comp, h]
        · simp [Function.comp, h]
      rw [hmap]
      exact h1
    · intro kv hkv
      obtain ⟨a, ha, rfl⟩ := List.mem_map.mp hkv
      by_cases h : a.1 = keyOfA it
      · simp only [if_pos h]
        rfl
      · simp only [if_neg h]
        exact h2 a ha

theorem mergeFold_inv (items : List ItemA) :
    ∀ acc : List (String × ItemA),
      (acc.map Prod.fst).Nodup → (∀ kv ∈ acc, kv.1 = keyOfA kv.2) →
      ((items.foldl insertItem acc).map Prod.fst).Nodup ∧
        ∀ kv ∈ items.foldl insertItem acc, kv.1 = keyOfA kv.2 := by
  induction items with
  | nil => intro acc h1 h2; exact ⟨h1, h2⟩
  | cons it items ih =>
    intro acc h1 h2
    have h := insertItem_inv acc it h1 h2
    exact ih (insertItem acc it) h.1 h.2

theorem runExtractionLoop_eq_filterMap (l : List (Article × LLMOutcome)) :
    runExtractionLoop l = l.filterMap (fun ao => extractStep ao.1 ao.2) := by
  induction l with
  | nil => rfl
  | cons ao l ih =>
    obtain ⟨a, o⟩ := ao
    cases o with
    | raise => simpa [runExtractionLoop, extractStep, List.filterMap_cons] using ih
    | response p =>
      cases h : extractItem a.url p with
      | error e => simp [runExtractionLoop, extractStep, List.filterMap_cons, h, ih]
      | ok r =>
        cases r with
        | none => simp [runExtractionLoop, extractStep, List.filterMap_cons, h, ih]
        | some it => simp [runExtractionLoop, extractStep, List.filterMap_cons, h, ih]

theorem gnewsRun_all_5xx (rand : Nat → Nat) (resp : Nat → HttpResp) :
    ∀ (fuel i : Nat), (∀ j, j < fuel → 500 ≤ (resp (i + j)).status) →
      gnewsRun rand resp i fuel =
        (.exhausted, (List.range fuel).map (fun j : Nat => (1000 : ℚ) * ((i : ℚ) + (j : ℚ) + 1))) := by
  intro fuel
  induction fuel with
  | zero => intro i _; simp [gnewsRun]
  | succ fuel ih =>
    intro i h
    have h0 : 500 ≤ (resp i).status := by simpa using h 0 (Nat.succ_pos fuel)
    have hok : respOk (resp i) = false := by
      unfold respOk
      have hle : ¬ ((resp i).status ≤ 299) := by omega
      simp [hle]
    have h429 : ¬ ((resp i).status = 429) := by omega
    have hrec := ih (i + 1) (fun j hj => by
      have := h (j + 1) (by omega)
      have harith : i + (j + 1) = i + 1 + j := by omega
      rwa [harith] at this)
    simp only [gnewsRun, hok, Bool.false_eq_true, if_false, if_neg h429, if_pos h0, hrec]
    rw [Prod.mk.injEq]
    refine ⟨rfl, ?_⟩
    rw [List.range_succ_eq_map, List.map_cons, List.map_map]
    rw [List.cons.injEq]
    constructor
    · push_cast
      ring
    · apply List.map_congr_left
      intro j _
      simp only [Function.comp]
      push_cast
      ring

theorem gnewsRun_all_429 (rand : Nat → Nat) (resp : Nat → HttpResp) :
    ∀ (fuel i : Nat), (∀ j, j < fuel → (resp (i + j)).status = 429) →
      gnewsRun rand resp i fuel =
        (.exhausted, (List.range fuel).map
          (fun j => 2500 * (9 / 5 : ℚ) ^ (i + j) + (rand (i + j) : ℚ))) := by
  intro fuel
  induction fuel with
  | zero => intro i _; simp [gnewsRun]
  | succ fuel ih =>
    intro i h
    have h0 : (resp i).status = 429 := by simpa using h 0 (Nat.succ_pos fuel)
    have hok : respOk (resp i) = false := by
      unfold respOk
      have hle : ¬ (200 ≤ (resp i).status ∧ (resp i).status ≤ 299) := by omega
      by_cases h2 : 200 ≤ (resp i).status
      · have : ¬ ((resp i).status ≤ 299) := fun hc => hle ⟨h2, hc⟩
        simp [this]
      · simp [h2]
    have hrec := ih (i + 1) (fun j hj => by
      have := h (j + 1) (by omega)
      have harith : i + (j + 1) = i + 1 + j := by omega
      rwa [harith] at this)
    simp only [gnewsRun, hok, Bool.false_eq_true, if_false, if_pos h0, hrec]
    rw [Prod.mk.injEq]
    refine ⟨rfl, ?_⟩
    rw [List.range_succ_eq_map, List.map_cons, List.map_map]
    rw [List.cons.injEq]
    constructor
    · simp
    · apply List.map_congr_left
      intro j _
      simp only [Function.comp]
      have harith : i + 1 + j = i + (j + 1) := by omega
      rw [harith]

theorem gnewsRun_immediate_error (rand : Nat → Nat) (resp : Nat → HttpResp)
    (i fuel : Nat) (hok : respOk (resp i) = false)
    (h429 : (resp i).status ≠ 429) (h5 : (resp i).status < 500) :
    gnewsRun rand resp i (fuel + 1) = (.httpError (resp i).status (resp i).body, []) := by
  have h5' : ¬ (500 ≤ (resp i).status) := by omega
  simp only [gnewsRun, hok, Bool.false_eq_true, if_false, if_neg h429, if_neg h5']

theorem gnewsRun_success (rand : Nat → Nat) (resp : Nat → HttpResp)
    (i fuel : Nat) (hok : respOk (resp i) = true) :
    gnewsRun rand resp i (fuel + 1) = (.success (resp i).body, []) := by
  simp only [gnewsRun, hok, if_true]

theorem dropWhile_head_false {α : Type _} {p : α → Bool} :
    ∀ (l : List α) (a : α) (t : List α), l.dropWhile p = a :: t → p a = false := by
  intro l
  induction l with
  | nil => intro a t h; simp [List.dropWhile] at h
  | cons b l ih =>
    intro a t h
    rw [List.dropWhile_cons] at h
    by_cases hb : p b
    · rw [if_pos hb] at h
      exact ih a t h
    · rw [if_neg hb] at h
      injection h with h1 h2
      subst h1
      simpa using hb

theorem dropWhile_idem {α : Type _} (p : α → Bool) (l : List α) :
    (l.dropWhile p).dropWhile p = l.dropWhile p := by
  cases h : l.dropWhile p with
  | nil => rfl
  | cons a t =>
    rw [List.dropWhile_cons, dropWhile_head_false l a t h]
    simp

theorem jsTrimL_idem (l : List Char) : jsTrimL (jsTrimL l) = jsTrimL l := by
  unfold jsTrimL
  obtain ⟨u, hu⟩ := List.dropWhile_suffix (l := (l.dropWhile isJsWs).reverse) isJsWs
  have h1 : ((l.dropWhile isJsWs).reverse.dropWhile isJsWs).reverse.dropWhile isJsWs =
      ((l.dropWhile isJsWs).reverse.dropWhile isJsWs).reverse := by
    cases hBr : ((l.dropWhile isJsWs).reverse.dropWhile isJsWs).reverse with
    | nil => simp
    | cons a t =>
      have hA : l.dropWhile isJsWs = a :: (t ++ u.reverse) := by
        have : l.dropWhile isJsWs = (u ++ (l.dropWhile isJsWs).reverse.dropWhile isJsWs).reverse := by
          rw [hu, List.reverse_reverse]
        rw [this, List.reverse_append, hBr]
        simp
      have hpa : isJsWs a = false := dropWhile_head_false l a _ hA
      rw [List.dropWhile_cons, hpa]
      simp
  rw [h1, List.reverse_reverse, dropWhile_idem]

theorem jsTrim_normCompany (s : String) : jsTrim (normCompany s) = normCompany s := by
  unfold jsTrim normCompany
  exact congrArg String.mk (jsTrimL_idem _)

theorem getHeader_xauth (headers : List (String × String)) :
    getHeader headers "x-auth-token" = getHeader headers "X-Auth-Token" := by
  unfold getHeader
  simp only [show jsToLower "X-Auth-Token" = "x-auth-token" from rfl,
    show jsToLower "x-auth-token" = "x-auth-token" from rfl]

theorem jsOrStr_self (a : Option String) : jsOrStr a a = a := by
  cases a with
  | none => rfl
  | some s =>
    show (if s = "" then some s else some s) = some s
    split <;> rfl

/-! ## Claim theorems -/

/-- C1: the pipeline merges any two items whose company names are equal after
normalization into a single record (the map of normalized keys of the merged
output is duplicate-free, and two same-key items fold into one `merge2`
record), and the merged status is the higher-ranked of the two under
approved=4 > RHP=3 > DRHP=2 > rumor=1, the later item's status winning ties,
with unknown statuses ranking 0. -/
theorem claim1_merge_by_normalized_company :
    (∀ items : List ItemA, ((mergeItems items).map keyOfA).Nodup)
    ∧ (∀ i1 i2 : ItemA, keyOfA i2 = keyOfA i1 → mergeItems [i1, i2] = [merge2 i1 i2])
    ∧ (∀ prev it : ItemA, (merge2 prev it).status = pickBetterStatus it.status prev.status)
    ∧ (∀ a b : String,
        (statusRank b < statusRank a → pickBetterStatus a b = a)
        ∧ (statusRank a < statusRank b → pickBetterStatus a b = b)
        ∧ (statusRank a = statusRank b → pickBetterStatus a b = a))
    ∧ (statusRank "approved" = 4 ∧ statusRank "RHP" = 3 ∧ statusRank "DRHP" = 2
        ∧ statusRank "rumor" = 1)
    ∧ (∀ s : String, s ≠ "approved" → s ≠ "RHP" → s ≠ "DRHP" → s ≠ "rumor" →
        statusRank s = 0) := by
  refine ⟨?_, ?_, ?_, ?_, ⟨rfl, rfl, rfl, rfl⟩, ?_⟩
  · intro items
    have h := mergeFold_inv items [] (by simp) (by simp)
    unfold mergeItems
    rw [List.map_map]
    have heq : (items.foldl insertItem []).map (keyOfA ∘ fun kv => kv.2) =
        (items.foldl insertItem []).map Prod.fst := by
      apply List.map_congr_left
      intro kv hkv
      exact (h.2 kv hkv).symm
    rw [heq]
    exact h.1
  · intro i1 i2 h
    unfold mergeItems
    simp only [List.foldl_cons, List.foldl_nil]
    unfold insertItem
    simp [h, List.find?]
  · intro prev it
    rfl
  · intro a b
    refine ⟨?_, ?_, ?_⟩
    · intro h
      unfold pickBetterStatus
      rw [if_pos (le_of_lt h)]
    · intro h
      unfold pickBetterStatus
      rw [if_neg (not_le.mpr h)]
    · intro h
      unfold pickBetterStatus
      rw [if_pos (le_of_eq h.symm)]
  · intro s h1 h2 h3 h4
    unfold statusRank
    rw [if_neg h1, if_neg h2, if_neg h3, if_neg h4]

/-- Witness for C1 at the concrete pair `itemA1`, `itemA2` (both normalize to
"acme"): they fold into one record whose status is the higher-ranked "RHP". -/
theorem claim1_witness :
    keyOfA itemA2 = keyOfA itemA1
    ∧ mergeItems [itemA1, itemA2] = [merge2 itemA1 itemA2]
    ∧ (merge2 itemA1 itemA2).status = "RHP"
    ∧ statusRank "DRHP" < statusRank "RHP" :=
  ⟨rfl, claim1_merge_by_normalized_company.2.1 itemA1 itemA2 rfl, rfl, by decide⟩

/-- C2 counterexample: on five consecutive 429 responses (jitter drawn as 0)
the waits are 2500, 4500, 8100, 14580, 26244 ms — consecutive differences
2000 and 3600 differ, so the 429 backoff does not grow linearly in the
attempt number as the claim states. -/
theorem claim2_counterexample :
    gnewsFetch (fun _ => 0) (fun _ => ⟨429, "limit"⟩) =
      (FetchResult.exhausted, [2500, 4500, 8100, 14580, 26244])
    ∧ ¬ ((4500 : ℚ) - 2500 = 8100 - 4500) := by
  constructor
  · have h := gnewsRun_all_429 (fun _ => 0) (fun _ => ⟨429, "limit"⟩) 5 0
      (fun _ _ => rfl)
    rw [gnewsFetch, h]
    rw [Prod.mk.injEq]
    refine ⟨rfl, ?_⟩
    rw [show List.range 5 = [0, 1, 2, 3, 4] from rfl]
    simp only [List.map_cons, List.map_nil]
    norm_num
  · norm_num

/-- C2 (amended): `gnewsFetch` retries on 429 and on 5xx and gives up with a
retries-exhausted error after its 5 tries, but the backoff is linear
(1000·(i+1) ms) only for 5xx; for 429 it is exponential,
2500·1.8^i ms plus jitter.  Any other non-2xx status raises immediately with
no retry, and a 2xx returns at once. -/
theorem claim2_retry_backoff :
    (∀ (rand : Nat → Nat) (resp : Nat → HttpResp),
        (∀ j, j < 5 → 500 ≤ (resp j).status) →
        gnewsFetch rand resp = (.exhausted, [1000, 2000, 3000, 4000, 5000]))
    ∧ (∀ (rand : Nat → Nat) (resp : Nat → HttpResp),
        (∀ j, j < 5 → (resp j).status = 429) →
        gnewsFetch rand resp = (.exhausted,
          [2500 + (rand 0 : ℚ), 4500 + (rand 1 : ℚ), 8100 + (rand 2 : ℚ),
           14580 + (rand 3 : ℚ), 26244 + (rand 4 : ℚ)]))
    ∧ (∀ (rand : Nat → Nat) (resp : Nat → HttpResp),
        respOk (resp 0) = false → (resp 0).status ≠ 429 → (resp 0).status < 500 →
        gnewsFetch rand resp = (.httpError (resp 0).status (resp 0).body, []))
    ∧ (∀ (rand : Nat → Nat) (resp : Nat → HttpResp),
        respOk (resp 0) = true →
        gnewsFetch rand resp = (.success (resp 0).body, [])) := by
  refine ⟨?_, ?_, ?_, ?_⟩
  · intro rand resp h
    have hrun := gnewsRun_all_5xx rand resp 5 0 (fun j hj => by simpa using h j hj)
    rw [gnewsFetch, hrun]
    rw [Prod.mk.injEq]
    refine ⟨rfl, ?_⟩
    rw [show List.range 5 = [0, 1, 2, 3, 4] from rfl]
    simp only [List.map_cons, List.map_nil]
    norm_num
  · intro rand resp h
    have hrun := gnewsRun_all_429 rand resp 5 0 (fun j hj => by simpa using h j hj)
    rw [gnewsFetch, hrun]
    rw [Prod.mk.injEq]
    refine ⟨rfl, ?_⟩
    rw [show List.range 5 = [0, 1, 2, 3, 4] from rfl]
    simp only [List.map_cons, List.map_nil]
    norm_num
  · intro rand resp h1 h2 h3
    exact gnewsRun_immediate_error rand resp 0 4 h1 h2 h3
  · intro rand resp h
    exact gnewsRun_success rand resp 0 4 h

/-- Witness for C2 at a constant-503 response sequence: the linear waits and
the retries-exhausted error. -/
theorem claim2_witness :
    (∀ j : Nat, j < 5 → 500 ≤ ((fun _ => (⟨503, "oops"⟩ : HttpResp)) j).status)
    ∧ gnewsFetch (fun _ => 7) (fun _ => ⟨503, "oops"⟩) =
        (.exhausted, [1000, 2000, 3000, 4000, 5000]) :=
  ⟨fun _ _ => by norm_num,
   claim2_retry_backoff.1 (fun _ => 7) (fun _ => ⟨503, "oops"⟩) (fun _ _ => by norm_num)⟩

/-- C3: when the request body fails the zod `Payload` schema, the `/monthly`
handler answers 400 carrying the validation error, sends no email and posts
nothing to the Zapier webhook. -/
theorem claim3_invalid_payload_400 :
    ∀ (env : ServerEnv) (numStr : ℚ → String) (cn : JsVal → Option ℚ)
      (iu : String → Bool) (sendOk : Bool) (body : JsVal) (e : String),
      validatePayload cn iu body = .error e →
      postMonthly env numStr cn iu sendOk body = ⟨400, .validationErr e, [], []⟩ := by
  intro env numStr cn iu sendOk body e h
  unfold postMonthly
  rw [h]

/-- Witness for C3: a non-object body fails validation and yields 400 with no
deliveries. -/
theorem claim3_witness :
    validatePayload (fun _ => none) (fun _ => false) (JsVal.str "not json") =
      .error "payload"
    ∧ postMonthly ⟨false, none, none, none, none⟩ (fun _ => "") (fun _ => none)
        (fun _ => false) true (JsVal.str "not json") =
        ⟨400, .validationErr "payload", [], []⟩ :=
  ⟨rfl, claim3_invalid_payload_400 _ _ _ _ _ _ _ rfl⟩

/-- C4 counterexample: the server registers `GET /health` (and `GET /status`)
besides `POST /monthly` — three routes, not one. -/
theorem claim4_counterexample :
    Route.mk "GET" "/health" false ∈ appRoutes
    ∧ appRoutes.length = 3
    ∧ appRoutes ≠ [Route.mk "POST" "/monthly" true] := by
  refine ⟨by decide, by decide, by decide⟩

/-- C4 (amended): the server registers exactly three routes — `GET /health`
(open), `GET /status` and `POST /monthly` (both secret-protected) — and
`POST /monthly` is its only payload-accepting (POST) endpoint. -/
theorem claim4_routes :
    appRoutes.map (fun r => (r.method, r.path)) =
      [("GET", "/health"), ("GET", "/status"), ("POST", "/monthly")]
    ∧ (appRoutes.filter (fun r => r.method = "POST")).map (fun r => r.path) = ["/monthly"]
    ∧ (appRoutes.filter (fun r => !r.requiresSecret)).map (fun r => r.path) = ["/health"] := by
  refine ⟨by decide, by decide, by decide⟩

/-- C5 counterexample: `normCo(null)` throws — the `s = ""` default parameter
replaces only `undefined`, so `null.toLowerCase()` raises a TypeError,
refuting totality on every input value including `null`. -/
theorem claim5_counterexample :
    normCoJs JsVal.null = .error "TypeError: toLowerCase is not a function" := rfl

/-- C5 (amended): `normCompany` returns a trimmed string without raising on
every falsy value (`null`, `undefined`, `""`, `0`, `false`) and on every
string; `normCo` does so on `undefined` and on every string but raises a
TypeError on `null` (and any other truthy non-string); `pickBetterStatus`
always returns one of its two arguments without raising; and the
`issue_size_cr` coercion yields a finite number, deletes the field, or leaves
a non-string value unchanged — never raising. -/
theorem claim5_helper_totality :
    (∀ v : JsVal, jsTruthy v = false → normCompanyJs v = .ok "")
    ∧ (∀ s : String, normCompanyJs (.str s) = .ok (normCompany s))
    ∧ (∀ s : String, normCoJs (.str s) = .ok (normCompany s))
    ∧ normCoJs .undef = .ok ""
    ∧ (∀ s : String, jsTrim (normCompany s) = normCompany s)
    ∧ (∀ a b : String, pickBetterStatus a b = a ∨ pickBetterStatus a b = b)
    ∧ (∀ v : JsVal, (∃ q, sanitizeIssueSize v = some (JsVal.num q))
        ∨ sanitizeIssueSize v = none ∨ sanitizeIssueSize v = some v)
    ∧ normCoJs .null = .error "TypeError: toLowerCase is not a function" := by
  refine ⟨?_, ?_, fun s => rfl, rfl, jsTrim_normCompany, ?_, ?_, rfl⟩
  · intro v h
    unfold normCompanyJs
    rw [h]
    rfl
  · intro s
    unfold normCompanyJs
    by_cases h : s = ""
    · subst h
      rfl
    · have ht : jsTruthy (.str s) = true := by simp [jsTruthy, h]
      rw [ht]
      rfl
  · intro a b
    unfold pickBetterStatus
    by_cases h : statusRank b ≤ statusRank a
    · exact Or.inl (if_pos h)
    · exact Or.inr (if_neg h)
  · intro v
    cases v with
    | str s =>
      unfold sanitizeIssueSize
      cases hp : parseCleanNum (s.data.filter (fun c => c.isDigit || c = '.')) with
      | none =>
        refine Or.inr (Or.inl ?_)
        show Option.map JsVal.num
          (parseCleanNum (s.data.filter (fun c => c.isDigit || c = '.'))) = none
        rw [hp]
        rfl
      | some q =>
        refine Or.inl ⟨q, ?_⟩
        show Option.map JsVal.num
          (parseCleanNum (s.data.filter (fun c => c.isDigit || c = '.'))) = some (JsVal.num q)
        rw [hp]
        rfl
    | undef => exact Or.inr (Or.inr rfl)
    | null => exact Or.inr (Or.inr rfl)
    | bool b => exact Or.inr (Or.inr rfl)
    | num q => exact Or.inr (Or.inr rfl)
    | arr xs => exact Or.inr (Or.inr rfl)
    | obj fs => exact Or.inr (Or.inr rfl)

/-- Witness for C5 at `null`: falsy, so `normCompany` returns `""` without
raising. -/
theorem claim5_witness :
    jsTruthy JsVal.null = false ∧ normCompanyJs JsVal.null = .ok "" :=
  ⟨rfl, claim5_helper_totality.1 JsVal.null rfl⟩

/-- C6: the extraction loop consumes exactly one LLM outcome per article and
treats articles independently (`filterMap` of a per-article step); an invalid
JSON response (parse threw, so the object is `{}`) and a parsed object
missing `company` or `status` each make extraction return null rather than
raise; and an extraction that does raise is swallowed by the loop's `catch`,
dropping only that article. -/
theorem claim6_extraction_single_shot :
    (∀ l : List (Article × LLMOutcome),
        runExtractionLoop l = l.filterMap (fun ao => extractStep ao.1 ao.2))
    ∧ (∀ url : String, extractItem url none = .ok none)
    ∧ (∀ (url : String) (fs : List (String × JsVal)),
        getField (.obj fs) "company" = none →
        extractItem url (some (.obj fs)) = .ok none)
    ∧ (∀ (url : String) (fs : List (String × JsVal)),
        getField (.obj fs) "status" = none →
        extractItem url (some (.obj fs)) = .ok none)
    ∧ (∀ (xs ys : List (Article × LLMOutcome)) (a : Article),
        runExtractionLoop (xs ++ (a, .raise) :: ys) = runExtractionLoop (xs ++ ys)) := by
  refine ⟨runExtractionLoop_eq_filterMap, fun url => rfl, ?_, ?_, ?_⟩
  · intro url fs h
    unfold extractItem
    simp [h, truthyOpt, jsTruthy]
  · intro url fs h
    unfold extractItem
    by_cases hc : truthyOpt (getField (.obj fs) "company") <;>
      simp [h, hc, truthyOpt, jsTruthy]
  · intro xs ys a
    rw [runExtractionLoop_eq_filterMap, runExtractionLoop_eq_filterMap,
      List.filterMap_append, List.filterMap_append, List.filterMap_cons]
    simp [extractStep]

/-- Witness for C6: an object carrying only a status lacks `company`, so
extraction skips it with null. -/
theorem claim6_witness :
    getField (.obj [("status", JsVal.str "DRHP")]) "company" = none
    ∧ extractItem "https://n.example/w" (some (.obj [("status", JsVal.str "DRHP")])) =
        .ok none :=
  ⟨rfl, claim6_extraction_single_shot.2.2.1 "https://n.example/w" _ rfl⟩

/-- C7 counterexample: with empty top headlines, the top-up search returns a
business headline with no IPO keyword, and `getArticles` hands it on — so an
article that fails the IPO filter is submitted to extraction. -/
theorem claim7_counterexample :
    artQuarterly ∈ getArticles2 0 headsEmpty searchOne
    ∧ ipoTest (ipoText artQuarterly) = false := by
  refine ⟨by decide, by decide⟩

/-- C7 (amended): only the top-headline articles pass through the `IPO_RGX`
keyword filter; every article `getArticles` returns either matches the filter
or came from a top-up search (whose results are not filtered).  When the
filtered headlines already reach `MAX_ARTICLES` — so no top-up happens —
every returned article matches the filter. -/
theorem claim7_ipo_filter :
    (∀ (m : Int) (heads : Nat → List Article) (search : Nat → Nat → List Article)
        (a : Article), a ∈ getArticles2 m heads search →
        ipoTest (ipoText a) = true ∨ ∃ q p, a ∈ search q p)
    ∧ (∀ (m : Int) (heads : Nat → List Article) (a : Article),
        a ∈ headlinePool m heads → ipoTest (ipoText a) = true)
    ∧ (∀ (m : Int) (heads : Nat → List Article) (search : Nat → Nat → List Article)
        (a : Article), maxArticles m ≤ (headlinePool m heads).length →
        a ∈ getArticles2 m heads search → ipoTest (ipoText a) = true) := by
  have hpool : ∀ (m : Int) (heads : Nat → List Article) (a : Article),
      a ∈ headlinePool m heads → ipoTest (ipoText a) = true := by
    intro m heads a ha
    unfold headlinePool at ha
    exact (List.mem_filter.mp ha).2
  refine ⟨?_, hpool, ?_⟩
  · intro m heads search a ha
    unfold getArticles2 at ha
    have h2 : a ∈ topUpPool m heads search :=
      mem_dedupeByUrl _ a (List.mem_of_mem_take ha)
    unfold topUpPool at h2
    by_cases hlen : (headlinePool m heads).length < maxArticles m
    · rw [if_pos hlen] at h2
      rcases List.mem_append.mp h2 with h | h
      · exact Or.inl (hpool m heads a h)
      · unfold searchTopUp at h
        obtain ⟨q, _, h⟩ := List.mem_flatMap.mp h
        obtain ⟨p, _, h⟩ := List.mem_flatMap.mp h
        exact Or.inr ⟨q, p + 1, h⟩
    · rw [if_neg hlen] at h2
      exact Or.inl (hpool m heads a h2)
  · intro m heads search a hlen ha
    unfold getArticles2 at ha
    have h2 : a ∈ topUpPool m heads search :=
      mem_dedupeByUrl _ a (List.mem_of_mem_take ha)
    unfold topUpPool at h2
    rw [if_neg (not_lt.mpr hlen)] at h2
    exact hpool m heads a h2

/-- Witness for C7: the DRHP headline is in the filtered pool and matches the
filter. -/
theorem claim7_witness :
    artDrhp ∈ headlinePool 20 headsOne ∧ ipoTest (ipoText artDrhp) = true :=
  ⟨by decide, claim7_ipo_filter.2.1 20 headsOne artDrhp (by decide)⟩

/-- C8: `uniq` (JS `Set` spread) yields a duplicate-free list in
first-occurrence order (a sublist of its input containing exactly the input's
elements, each once), the merged record's `lead_banks` is `uniq` of the two
lists' concatenation, and the merged `links` spread keeps every key of either
object with the later item's value winning on common keys. -/
theorem claim8_merge_union_links :
    (∀ l : List String,
        (uniq l).Nodup ∧ List.Sublist (uniq l) l ∧ ∀ x, x ∈ uniq l ↔ x ∈ l)
    ∧ (∀ (l : List String) (x : String), x ∈ l → (uniq l).count x = 1)
    ∧ (∀ prev it : ItemA,
        (merge2 prev it).lead_banks =
          some (uniq (prev.lead_banks.getD [] ++ it.lead_banks.getD []))
        ∧ (merge2 prev it).links = spreadObj prev.links it.links)
    ∧ (∀ (p i : List (String × JsVal)), (i.map Prod.fst).Nodup → ∀ k : String,
        (hasKey (spreadObj p i) k = true ↔ (hasKey p k = true ∨ hasKey i k = true))
        ∧ (hasKey i k = true → getKey (spreadObj p i) k = getKey i k)
        ∧ (hasKey i k = false → getKey (spreadObj p i) k = getKey p k)) := by
  refine ⟨?_, ?_, ?_, ?_⟩
  · intro l
    exact ⟨uniq_nodup l, uniq_sublist l, mem_uniq l⟩
  · intro l x hx
    exact List.count_eq_one_of_mem (uniq_nodup l) ((mem_uniq l x).mpr hx)
  · intro prev it
    exact ⟨rfl, rfl⟩
  · intro p i hnd k
    have hg := getKey_spreadObj i p k hnd
    refine ⟨?_, ?_, ?_⟩
    · rw [hasKey_iff_getKey, hasKey_iff_getKey, hasKey_iff_getKey, hg]
      cases hik : getKey i k with
      | some v => simp
      | none => simp
    · intro hik
      obtain ⟨v, hv⟩ : ∃ v, getKey i k = some v := by
        cases hgi : getKey i k with
        | none => exact absurd hgi ((hasKey_iff_getKey i k).mp hik)
        | some v => exact ⟨v, rfl⟩
      rw [hg, hv]
    · intro hik
      have hnone : getKey i k = none := by
        cases hgi : getKey i k with
        | none => rfl
        | some v =>
          have : hasKey i k = true := (hasKey_iff_getKey i k).mpr (by simp [hgi])
          rw [this] at hik
          exact absurd hik (by simp)
      rw [hg, hnone]

/-- Witness for C8 on the concrete records: "SBI Caps" appears once in the
merged bank list, and the later item's `rhp` link wins in the merged links. -/
theorem claim8_witness :
    (uniq (["SBI Caps"] ++ ["SBI Caps", "Kotak"])).count "SBI Caps" = 1
    ∧ getKey (spreadObj itemA1.links itemA2.links) "rhp" = getKey itemA2.links "rhp" :=
  ⟨claim8_merge_union_links.2.1 _ "SBI Caps" (by decide),
   ((claim8_merge_union_links.2.2.2 itemA1.links itemA2.links (by decide)) "rhp").2.1
     (by decide)⟩

/-- C9: with `SHARED_SECRET` unset or empty the middleware passes every
request unchecked; with a non-empty secret a request is rejected with 401
exactly when its (case-insensitively looked-up) `X-Auth-Token` header differs
from the secret. -/
theorem claim9_shared_secret :
    (∀ headers : List (String × String), requireSecret none headers = .pass)
    ∧ (∀ headers : List (String × String), requireSecret (some "") headers = .pass)
    ∧ (∀ (s : String) (headers : List (String × String)), s ≠ "" →
        (requireSecret (some s) headers = .unauthorized ↔
          getHeader headers "X-Auth-Token" ≠ some s)) := by
  refine ⟨fun _ => rfl, fun _ => rfl, ?_⟩
  intro s headers hs
  simp only [requireSecret]
  rw [if_neg hs, getHeader_xauth, jsOrStr_self]
  by_cases h : getHeader headers "X-Auth-Token" = some s
  · simp [h]
  · simp [h]

/-- Witness for C9: a wrong token against a non-empty secret. -/
theorem claim9_witness :
    ("secret" : String) ≠ ""
    ∧ (requireSecret (some "secret") [("X-Auth-Token", "wrong")] = .unauthorized ↔
        getHeader [("X-Auth-Token", "wrong")] "X-Auth-Token" ≠ some "secret") :=
  ⟨by decide, claim9_shared_secret.2.2 "secret" [("X-Auth-Token", "wrong")] (by decide)⟩

/-- C10: both `getArticles` variants return lists with pairwise-distinct
URLs; the low-request variant returns at most `MAX_ARTICLES` articles, and
`MAX_ARTICLES` is clamped to at least 5. -/
theorem claim10_dedupe_and_cap :
    (∀ (m : Int) (heads : Nat → List Article) (search : Nat → Nat → List Article),
        (getArticles2 m heads search).Pairwise (fun x y => x.url ≠ y.url))
    ∧ (∀ (m : Int) (heads : Nat → List Article) (search : Nat → Nat → List Article),
        (getArticles2 m heads search).length ≤ maxArticles m)
    ∧ (∀ m : Int, 5 ≤ maxArticles m)
    ∧ (∀ chunks : List (List Article),
        (getArticles1 chunks).Pairwise (fun x y => x.url ≠ y.url)) := by
  refine ⟨?_, ?_, ?_, ?_⟩
  · intro m heads search
    exact List.Pairwise.sublist (List.take_sublist _ _) (dedupeByUrl_pairwise _)
  · intro m heads search
    unfold getArticles2
    rw [List.length_take]
    exact min_le_left _ _
  · intro m
    unfold maxArticles
    have h5 : (5 : Int) ≤ max 5 m := le_max_left _ _
    exact Int.toNat_le_toNat h5
  · intro chunks
    exact dedupeByUrl_pairwise _
